import Mathlib

/-!
Verification of the git-ripper crawler against its specification.

The development shallowly embeds the parts of the program the claims are
about: the binary git-index parser (`utils/git.py`), the regular-expression
scanners and the discovery engine (`parse_file`), URL normalization and the
local destination-path computation, and the queue/worker state machine of
`GitRipper.run` / `GitRipper.worker`.  Machine integers are `Nat` with
explicit bounds where overflow matters; fallible code returns
`Option`/`Except`; I/O outcomes (network responses, zlib inflation) are
oracle parameters.
-/

namespace GitRipper

/-- A byte, as a natural number below 256. -/
abbrev Byte := Nat

/-! ## Git index binary parser (embedding of `utils/git.py`) -/

/-- Big-endian read of one unsigned 32-bit integer (struct format `I`).
Fails when fewer than four bytes remain, as `struct.unpack` does on a short
read. -/
def readU32 : List Byte → Option (Nat × List Byte)
  | b0 :: b1 :: b2 :: b3 :: r => some (((b0 * 256 + b1) * 256 + b2) * 256 + b3, r)
  | _ => none

/-- Big-endian read of one unsigned 16-bit integer (struct format `H`). -/
def readU16 : List Byte → Option (Nat × List Byte)
  | b0 :: b1 :: r => some (b0 * 256 + b1, r)
  | _ => none

/-- Read `n` raw bytes (struct format `s`); fails when fewer are available. -/
def readBytes (n : Nat) (s : List Byte) : Option (List Byte × List Byte) :=
  if n ≤ s.length then some (s.take n, s.drop n) else none

/-- `Header` of `utils/git.py`. -/
structure Header where
  signature : List Byte
  version : Nat
  num_entries : Nat
  deriving Repr, DecidableEq

/-- `Entry` of `utils/git.py`: ten 4-byte big-endian fields, a 20-byte object
id, 2-byte flags, and the null-terminated path read separately. -/
structure Entry where
  ctime_seconds : Nat
  ctime_nanoseconds : Nat
  mtime_seconds : Nat
  mtime_nanoseconds : Nat
  dev : Nat
  ino : Nat
  mode : Nat
  uid : Nat
  gid : Nat
  file_size : Nat
  sha1 : List Byte
  flags : Nat
  file_path : List Byte
  deriving Repr, DecidableEq

/-- The errors `GitIndex.parse` can raise: `struct.error` on a short read,
and the repository's own `InvalidSignature` / `InvalidVersion`. -/
inductive IndexErr
  | structErr
  | invalidSignature
  | invalidVersion
  deriving Repr, DecidableEq

/-- The literal 4-byte tag `DIRC`. -/
def dircSignature : List Byte := [68, 73, 82, 67]

/-- `GitIndex.parse_header`: unpack `!4s2I`, then check the signature is
`DIRC`, then check the version is 2, 3 or 4.  A short buffer raises
`struct.error` before either check. -/
def parse_header (s : List Byte) : Except IndexErr (Header × List Byte) :=
  match readBytes 4 s with
  | none => .error .structErr
  | some (sig, s1) =>
    match readU32 s1 with
    | none => .error .structErr
    | some (ver, s2) =>
      match readU32 s2 with
      | none => .error .structErr
      | some (n, s3) =>
        if sig = dircSignature then
          if ver = 2 ∨ ver = 3 ∨ ver = 4 then .ok (⟨sig, ver, n⟩, s3)
          else .error .invalidVersion
        else .error .invalidSignature

/-- The fixed 62-byte block of one entry (struct format `!10I20sH`). -/
def readEntryFixed (s : List Byte) : Option (Entry × List Byte) :=
  match readU32 s with
  | none => none
  | some (ctimeS, s) =>
  match readU32 s with
  | none => none
  | some (ctimeN, s) =>
  match readU32 s with
  | none => none
  | some (mtimeS, s) =>
  match readU32 s with
  | none => none
  | some (mtimeN, s) =>
  match readU32 s with
  | none => none
  | some (dev, s) =>
  match readU32 s with
  | none => none
  | some (ino, s) =>
  match readU32 s with
  | none => none
  | some (mode, s) =>
  match readU32 s with
  | none => none
  | some (uid, s) =>
  match readU32 s with
  | none => none
  | some (gid, s) =>
  match readU32 s with
  | none => none
  | some (fileSize, s) =>
  match readBytes 20 s with
  | none => none
  | some (sha, s) =>
  match readU16 s with
  | none => none
  | some (flags, s) =>
    some (⟨ctimeS, ctimeN, mtimeS, mtimeN, dev, ino, mode, uid, gid,
           fileSize, sha, flags, []⟩, s)

/-- The path loop of `parse_entries`: read bytes one at a time until a NUL
or end of data.  The NUL, when present, is consumed but not kept. -/
def readPath : List Byte → List Byte × List Byte
  | [] => ([], [])
  | b :: r =>
    if b = 0 then ([], r)
    else
      let (p, r2) := readPath r
      (b :: p, r2)

/-- One iteration of the loop in `GitIndex.parse_entries`: the fixed block,
the null-terminated path, then a relative seek of `(-consumed) mod 8` bytes
so the total entry size is a multiple of eight. -/
def parse_one_entry (s : List Byte) : Option (Entry × List Byte) :=
  match readEntryFixed s with
  | none => none
  | some (e, s1) =>
    let (p, s2) := readPath s1
    let consumed := 62 + (s1.length - s2.length)
    let pad := (8 - consumed % 8) % 8
    some ({ e with file_path := p }, s2.drop pad)

/-- `GitIndex.parse_entries`: exactly `num_entries` iterations. -/
def parse_entries : Nat → List Byte → Option (List Entry × List Byte)
  | 0, s => some ([], s)
  | n + 1, s =>
    match parse_one_entry s with
    | none => none
    | some (e, s1) =>
      match parse_entries n s1 with
      | none => none
      | some (es, s2) => some (e :: es, s2)

/-- `GitIndex.parse`: parse the header, then exactly `header.num_entries`
entries.  Any exception leaves no entry list behind, so an error result
carries no entries. -/
def gitIndexParse (s : List Byte) : Except IndexErr (List Entry) :=
  match parse_header s with
  | .error e => .error e
  | .ok (h, s1) =>
    match parse_entries h.num_entries s1 with
    | none => .error .structErr
    | some (es, _) => .ok es

/-! ### Spec-side encoder for well-formed index buffers -/

/-- Big-endian encoding of an unsigned 32-bit integer. -/
def encodeU32 (x : Nat) : List Byte :=
  [x / 16777216 % 256, x / 65536 % 256, x / 256 % 256, x % 256]

/-- Big-endian encoding of an unsigned 16-bit integer. -/
def encodeU16 (x : Nat) : List Byte :=
  [x / 256 % 256, x % 256]

/-- The data of one index entry to be encoded. -/
structure EntrySpec where
  ctimeS : Nat
  ctimeN : Nat
  mtimeS : Nat
  mtimeN : Nat
  dev : Nat
  ino : Nat
  mode : Nat
  uid : Nat
  gid : Nat
  fileSize : Nat
  sha1 : List Byte
  flags : Nat
  path : List Byte
  deriving Repr, DecidableEq

/-- Well-formedness of an entry to encode: numeric fields in range, a
20-byte object id, and a path free of NUL bytes. -/
def EntrySpec.WF (e : EntrySpec) : Prop :=
  e.ctimeS < 4294967296 ∧ e.ctimeN < 4294967296 ∧ e.mtimeS < 4294967296 ∧
  e.mtimeN < 4294967296 ∧ e.dev < 4294967296 ∧ e.ino < 4294967296 ∧
  e.mode < 4294967296 ∧ e.uid < 4294967296 ∧ e.gid < 4294967296 ∧
  e.fileSize < 4294967296 ∧ e.sha1.length = 20 ∧ e.flags < 65536 ∧
  0 ∉ e.path

instance (e : EntrySpec) : Decidable e.WF := by
  unfold EntrySpec.WF; infer_instance

/-- The `Entry` the parser should produce for an encoded `EntrySpec`. -/
def entryOf (e : EntrySpec) : Entry :=
  ⟨e.ctimeS, e.ctimeN, e.mtimeS, e.mtimeN, e.dev, e.ino, e.mode, e.uid,
   e.gid, e.fileSize, e.sha1, e.flags, e.path⟩

/-- Encoding of the fixed 62-byte block. -/
def encodeEntryFixed (e : EntrySpec) : List Byte :=
  encodeU32 e.ctimeS ++ encodeU32 e.ctimeN ++ encodeU32 e.mtimeS ++
  encodeU32 e.mtimeN ++ encodeU32 e.dev ++ encodeU32 e.ino ++
  encodeU32 e.mode ++ encodeU32 e.uid ++ encodeU32 e.gid ++
  encodeU32 e.fileSize ++ e.sha1 ++ encodeU16 e.flags

/-- Null padding making `63 + pathLen` (fixed block, path, NUL) up to a
multiple of eight. -/
def entryPadLen (pathLen : Nat) : Nat :=
  (8 - (63 + pathLen) % 8) % 8

/-- Encoding of one entry: fixed block, path, NUL terminator, null padding
to a multiple of eight bytes. -/
def encodeEntry (e : EntrySpec) : List Byte :=
  encodeEntryFixed e ++ e.path ++ 0 :: List.replicate (entryPadLen e.path.length) 0

/-- A whole index buffer: `DIRC`, version, entry count, then the entries. -/
def encodeIndex (version : Nat) (es : List EntrySpec) : List Byte :=
  dircSignature ++ encodeU32 version ++ encodeU32 es.length ++
  (es.map encodeEntry).flatten

/-! ### Parser lemmas -/

theorem readU32_encode (x : Nat) (r : List Byte) (h : x < 4294967296) :
    readU32 (encodeU32 x ++ r) = some (x, r) := by
  simp only [encodeU32, List.cons_append, List.nil_append, readU32]
  refine congrArg some (Prod.ext ?_ rfl)
  omega

theorem readU16_encode (x : Nat) (r : List Byte) (h : x < 65536) :
    readU16 (encodeU16 x ++ r) = some (x, r) := by
  simp only [encodeU16, List.cons_append, List.nil_append, readU16]
  refine congrArg some (Prod.ext ?_ rfl)
  omega

theorem readBytes_of_length {l : List Byte} {n : Nat} (h : l.length = n)
    (r : List Byte) : readBytes n (l ++ r) = some (l, r) := by
  subst h
  simp [readBytes, List.take_left, List.drop_left]

theorem readPath_append {p : List Byte} (hp : 0 ∉ p) (r : List Byte) :
    readPath (p ++ 0 :: r) = (p, r) := by
  induction p with
  | nil => simp [readPath]
  | cons b t ih =>
    have hb : b ≠ 0 := fun h => hp (h ▸ List.mem_cons_self b t)
    have ht : 0 ∉ t := fun h => hp (List.mem_cons_of_mem b h)
    simp [readPath, hb, ih ht]

theorem readEntryFixed_encode (e : EntrySpec) (r : List Byte) (h : e.WF) :
    readEntryFixed (encodeEntryFixed e ++ r) =
      some ({ entryOf e with file_path := [] }, r) := by
  obtain ⟨h1, h2, h3, h4, h5, h6, h7, h8, h9, h10, hs, hf, -⟩ := h
  simp only [encodeEntryFixed, List.append_assoc, readEntryFixed,
    readU32_encode _ _ h1, readU32_encode _ _ h2,
    readU32_encode _ _ h3, readU32_encode _ _ h4, readU32_encode _ _ h5,
    readU32_encode _ _ h6, readU32_encode _ _ h7, readU32_encode _ _ h8,
    readU32_encode _ _ h9, readU32_encode _ _ h10, readBytes_of_length hs,
    readU16_encode _ _ hf, entryOf]

theorem drop_replicate_of_eq {n m : Nat} (h : n = m) (r : List Byte) :
    List.drop n (List.replicate m (0 : Byte) ++ r) = r := by
  subst h
  rw [List.drop_left' (List.length_replicate _ _)]

theorem parse_one_entry_encode (e : EntrySpec) (r : List Byte) (h : e.WF) :
    parse_one_entry (encodeEntry e ++ r) = some (entryOf e, r) := by
  have hp : 0 ∉ e.path := h.2.2.2.2.2.2.2.2.2.2.2.2
  have hassoc : encodeEntry e ++ r =
      encodeEntryFixed e ++
        (e.path ++ 0 :: (List.replicate (entryPadLen e.path.length) 0 ++ r)) := by
    simp [encodeEntry, List.append_assoc]
  rw [hassoc]
  simp only [parse_one_entry, readEntryFixed_encode e _ h, readPath_append hp,
    List.length_append, List.length_cons, List.length_replicate]
  refine congrArg some (Prod.ext rfl ?_)
  refine drop_replicate_of_eq ?_ r
  simp only [entryPadLen]
  omega

theorem parse_entries_encode (es : List EntrySpec) (r : List Byte)
    (h : ∀ e ∈ es, e.WF) :
    parse_entries es.length ((es.map encodeEntry).flatten ++ r) =
      some (es.map entryOf, r) := by
  induction es with
  | nil => simp [parse_entries]
  | cons e t ih =>
    have he : e.WF := h e (List.mem_cons_self e t)
    have ht : ∀ x ∈ t, x.WF := fun x hx => h x (List.mem_cons_of_mem e hx)
    simp only [List.map_cons, List.flatten_cons, List.length_cons,
      List.append_assoc, parse_entries, parse_one_entry_encode e _ he, ih ht]

theorem parse_header_encode (ver n : Nat) (r : List Byte)
    (hv : ver = 2 ∨ ver = 3 ∨ ver = 4) (hv32 : ver < 4294967296)
    (hn : n < 4294967296) :
    parse_header (dircSignature ++ encodeU32 ver ++ encodeU32 n ++ r) =
      .ok (⟨dircSignature, ver, n⟩, r) := by
  simp only [List.append_assoc, parse_header,
    readBytes_of_length (l := dircSignature) (n := 4) rfl,
    readU32_encode _ _ hv32, readU32_encode _ _ hn]
  simp [hv]

/-- Claim C5: a well-formed version-2 index buffer — `DIRC` signature,
big-endian version 2, entry count `N`, and `N` entries each of a 62-byte
big-endian fixed block, a null-terminated path and null padding to a
multiple of 8 — parses to exactly the `N` encoded entries (object ids and
paths included), in order, and parsing stops after the `N` entries: any
trailing bytes are ignored. -/
theorem claim_C5_index_roundtrip (es : List EntrySpec) (rest : List Byte)
    (h : ∀ e ∈ es, e.WF) (hn : es.length < 4294967296) :
    gitIndexParse (encodeIndex 2 es ++ rest) = .ok (es.map entryOf) := by
  have hflat : encodeIndex 2 es ++ rest =
      dircSignature ++ encodeU32 2 ++ encodeU32 es.length ++
        ((es.map encodeEntry).flatten ++ rest) := by
    simp [encodeIndex, List.append_assoc]
  rw [hflat]
  simp only [gitIndexParse,
    parse_header_encode 2 es.length _ (Or.inl rfl) (by norm_num) hn,
    parse_entries_encode es rest h]

/-- Witness for C5: a concrete two-entry buffer with trailing garbage
parses to exactly those two entries. -/
theorem claim_C5_witness :
    gitIndexParse (encodeIndex 2 [
      ⟨1, 2, 3, 4, 5, 6, 33188, 1000, 1000, 7,
        List.replicate 20 171, 0, [97, 46, 116, 120, 116]⟩,
      ⟨0, 0, 0, 0, 0, 0, 33188, 0, 0, 9,
        List.replicate 20 205, 1, [115, 114, 99, 47, 98]⟩] ++ [255, 254]) =
      .ok [
        ⟨1, 2, 3, 4, 5, 6, 33188, 1000, 1000, 7,
          List.replicate 20 171, 0, [97, 46, 116, 120, 116]⟩,
        ⟨0, 0, 0, 0, 0, 0, 33188, 0, 0, 9,
          List.replicate 20 205, 1, [115, 114, 99, 47, 98]⟩] := by
  rw [claim_C5_index_roundtrip _ _ (by decide) (by decide)]
  rfl

/-- Claim C6: a buffer whose 4-byte signature is not `DIRC` fails with
`InvalidSignature`, and a `DIRC` buffer whose version is not 2, 3 or 4
fails with `InvalidVersion`; in both cases the result is an error, so no
(partial) entry list is ever produced for the caller. -/
theorem claim_C6_index_rejection (sig : List Byte) (ver n : Nat)
    (rest : List Byte) (hsig : sig.length = 4) (hv32 : ver < 4294967296)
    (hn32 : n < 4294967296) :
    (sig ≠ dircSignature →
      gitIndexParse (sig ++ encodeU32 ver ++ encodeU32 n ++ rest) =
        .error .invalidSignature) ∧
    (¬(ver = 2 ∨ ver = 3 ∨ ver = 4) →
      gitIndexParse (dircSignature ++ encodeU32 ver ++ encodeU32 n ++ rest) =
        .error .invalidVersion) ∧
    (∀ buf entries, gitIndexParse buf = .error .invalidSignature ∨
        gitIndexParse buf = .error .invalidVersion →
      gitIndexParse buf ≠ .ok entries) := by
  refine ⟨fun hne => ?_, fun hver => ?_, fun buf entries hbad hok => ?_⟩
  · simp only [gitIndexParse, List.append_assoc, parse_header,
      readBytes_of_length hsig, readU32_encode _ _ hv32,
      readU32_encode _ _ hn32]
    simp [hne]
  · simp only [gitIndexParse, List.append_assoc, parse_header,
      readBytes_of_length (l := dircSignature) (n := 4) rfl,
      readU32_encode _ _ hv32, readU32_encode _ _ hn32]
    simp [hver]
  · rcases hbad with hbad | hbad <;> rw [hok] at hbad <;> exact Except.noConfusion hbad

/-- Witness for C6: a `DIRX` buffer fails with `InvalidSignature`, and a
`DIRC` version-5 buffer fails with `InvalidVersion`. -/
theorem claim_C6_witness :
    gitIndexParse ([68, 73, 82, 88] ++ encodeU32 2 ++ encodeU32 0 ++ []) =
      .error .invalidSignature ∧
    gitIndexParse (dircSignature ++ encodeU32 5 ++ encodeU32 0 ++ []) =
      .error .invalidVersion :=
  ⟨(claim_C6_index_rejection [68, 73, 82, 88] 2 0 [] (by decide) (by decide)
      (by decide)).1 (by decide),
   (claim_C6_index_rejection dircSignature 5 0 [] (by decide) (by decide)
      (by decide)).2.1 (by decide)⟩

/-! ## Worker-pool sizing (embedding of `GitRipper.__init__` and `run`) -/

/-- Line 48 of `git_ripper.py`: `self.num_workers = min(1, num_workers)`. -/
def num_workers_init (numWorkers : Nat) : Nat :=
  min 1 numWorkers

/-- `run` creates one worker task per unit of `self.num_workers`
(`for _ in range(self.num_workers)`). -/
def worker_pool_size (numWorkers : Nat) : Nat :=
  num_workers_init numWorkers

/-- `run` enqueues one `None` stop signal per unit of `self.num_workers`. -/
def stop_signal_count (numWorkers : Nat) : Nat :=
  num_workers_init numWorkers

/-- Claim C4 (code bug): with a configured worker count of 20 — well inside
the documented 10–50 default range — the run creates one single worker and
one single stop signal, because `__init__` clamps with `min(1, num_workers)`
instead of `max(1, num_workers)`; indeed the pool never exceeds one worker
for any configured count. -/
theorem claim_C4_worker_pool_bug :
    worker_pool_size 20 = 1 ∧ stop_signal_count 20 = 1 ∧ (1 : Nat) ≠ 20 ∧
    ∀ w, worker_pool_size w ≤ 1 := by
  refine ⟨rfl, rfl, by decide, fun w => ?_⟩
  simp [worker_pool_size, num_workers_init]

/-! ## URL normalization (embedding of `GitRipper.normalize_git_url`) -/

/-- Remove the last `n` characters (`str.dropRight`). -/
def dropRightL (n : Nat) (l : List Char) : List Char :=
  l.take (l.length - n)

/-- First substitution, `re.sub(r'^(?!https?://)', 'http://', url, re.I)`:
the anchored negative lookahead inserts `http://` at position 0 exactly when
the string does not already start with `http://` or `https://`.  (`re.I` is
passed in the `count` position, so matching stays case-sensitive, and a
count bound of 2 is irrelevant for a pattern anchored at `^`.) -/
def ensure_scheme (l : List Char) : List Char :=
  if "http://".data.isPrefixOf l ∨ "https://".data.isPrefixOf l then l
  else "http://".data ++ l

/-- The consumed part of the match of `(/\.git)?/?` ending at a fixed
position: the longest of the suffixes `/.git/`, `/.git`, `/`, `` (empty)
present is removed (a match ending there starts leftmost-first, and the
pattern consumes at most six characters). -/
def dropGitSuffix (l : List Char) : List Char :=
  if "/.git/".data.isSuffixOf l then dropRightL 6 l
  else if "/.git".data.isSuffixOf l then dropRightL 5 l
  else if "/".data.isSuffixOf l then dropRightL 1 l
  else l

/-- Second substitution, `re.sub(r'(/\.git)?/?$', '/.git/', url, 1)`.
Python's `$` (without `re.M`) matches at the end of the string *and* just
before a trailing newline.  No consumable character of the pattern is a
newline, so when the string ends in `'\n'` every possible match ends just
before that newline — the leftmost one replaces the matched suffix of the
string-minus-newline and the newline survives.  Otherwise every match ends
at the very end of the string. -/
def append_git_suffix (l : List Char) : List Char :=
  if l.getLast? = some '\n' then
    dropGitSuffix (dropRightL 1 l) ++ "/.git/".data ++ ['\n']
  else
    dropGitSuffix l ++ "/.git/".data

/-- `GitRipper.normalize_git_url`: both substitutions in order.  The
function is total — no code path raises. -/
def normalize_git_url (url : String) : String :=
  String.mk (append_git_suffix (ensure_scheme url.data))

/-- Counterexample to claim C9 as stated: `"not a url"` cannot be parsed as
a URL, yet normalization does not fail — it returns the normalized base
`"http://not a url/.git/"`.  No `InvalidURL` condition exists anywhere in
the code. -/
theorem claim_C9_counterexample :
    normalize_git_url "not a url" = "http://not a url/.git/" := by
  decide

/-- Claim C9 as amended: URL normalization is total and never fails — for
every input string, parseable as a URL or not, it returns a string rather
than raising; there is no `InvalidURL` failure condition.  The result ends
in `/.git/` when the scheme-completed input does not end in a newline, and
in `/.git/` followed by that newline when it does (Python's `$` matches
just before a trailing newline); `ensure_scheme` preserves the last
character of every nonempty input. -/
theorem claim_C9_normalize_total (url : String) :
    ∃ p : String,
      ((ensure_scheme url.data).getLast? ≠ some '\n' ∧
        normalize_git_url url = p ++ "/.git/") ∨
      ((ensure_scheme url.data).getLast? = some '\n' ∧
        normalize_git_url url = p ++ "/.git/\n") := by
  unfold normalize_git_url append_git_suffix
  by_cases h : (ensure_scheme url.data).getLast? = some '\n'
  · refine ⟨String.mk (dropGitSuffix (dropRightL 1 (ensure_scheme url.data))),
      Or.inr ⟨h, ?_⟩⟩
    rw [if_pos h]
    apply String.ext
    simp [String.data_append]
  · refine ⟨String.mk (dropGitSuffix (ensure_scheme url.data)),
      Or.inl ⟨h, ?_⟩⟩
    rw [if_neg h]
    apply String.ext
    simp [String.data_append]

/-! ## Regular-expression scanners (embeddings of the compiled patterns in
`git_ripper.py`)

Python's `findall` scans left to right, returning non-overlapping matches;
at each position the alternation tries its branches in order.  The scanners
below implement exactly that, threading the previous character for `\b`
word-boundary tests.  The fuel argument is seeded with the input length;
every match consumes at least one character, so it never runs out before
the input does. -/

/-- Python `\w` over ASCII input: letters, digits, underscore. -/
def isWordChar (c : Char) : Bool :=
  c.isAlphanum || c = '_'

/-- One character of `[\da-f]` over ASCII input. -/
def isAsciiHexLower (c : Char) : Bool :=
  c.isDigit || ('a' ≤ c && c ≤ 'f')

/-- Python `\s` over ASCII input. -/
def isPySpace (c : Char) : Bool :=
  c = ' ' || c = '\t' || c = '\n' || c = '\r' || c = '\x0b' || c = '\x0c'

/-- A `\b` before a word character holds when the previous character is
absent or not a word character. -/
def boundaryBefore (prev : Option Char) : Bool :=
  match prev with
  | none => true
  | some c => !isWordChar c

/-- Read exactly `n` `[\da-f]` characters. -/
def takeHex : Nat → List Char → Option (List Char × List Char)
  | 0, rest => some ([], rest)
  | n + 1, c :: rest =>
    if isAsciiHexLower c then
      match takeHex n rest with
      | some (p, r) => some (c :: p, r)
      | none => none
    else none
  | _ + 1, [] => none

/-- A scanner matcher: previous character and remaining input to
(token, last consumed character, rest). -/
abbrev ReMatcher := Option Char → List Char → Option (List Char × Char × List Char)

/-- `HASH_RE = r'\b[\da-f]{40}\b'` at one position. -/
def hashMatcher : ReMatcher := fun prev s =>
  if boundaryBefore prev then
    match takeHex 40 s with
    | none => none
    | some (tok, rem) =>
      match rem with
      | [] => some (tok, tok.getLastD 'f', [])
      | c :: _ => if isWordChar c then none else some (tok, tok.getLastD 'f', rem)
  else none

/-- `REF_RE = r'\bref/\S+'` at one position: the literal `ref/` — not
`refs/` — then one or more non-space characters, greedily. -/
def refMatcher : ReMatcher := fun prev s =>
  if boundaryBefore prev then
    match s with
    | 'r' :: 'e' :: 'f' :: '/' :: rest =>
      let run := rest.takeWhile (fun c => !isPySpace c)
      if run.isEmpty then none
      else some ('r' :: 'e' :: 'f' :: '/' :: run, run.getLastD '/', rest.drop run.length)
    | _ => none
  else none

/-- `HASH_OR_REF_RE`: the hash branch first, then the ref branch, as in the
concatenated pattern. -/
def hashOrRefMatcher : ReMatcher := fun prev s =>
  match hashMatcher prev s with
  | some r => some r
  | none => refMatcher prev s

/-- `PACK_HASH_RE = r'\bpack\-[\da-f]{40}\b'` at one position. -/
def packMatcher : ReMatcher := fun prev s =>
  if boundaryBefore prev then
    match s with
    | 'p' :: 'a' :: 'c' :: 'k' :: '-' :: rest =>
      match takeHex 40 rest with
      | none => none
      | some (tok, rem) =>
        let full := 'p' :: 'a' :: 'c' :: 'k' :: '-' :: tok
        match rem with
        | [] => some (full, tok.getLastD 'f', [])
        | c :: _ => if isWordChar c then none else some (full, tok.getLastD 'f', rem)
    | _ => none
  else none

/-- `BRANCH_RE = r'\[branch "([^"]+)"\]'` at one position; the token is the
capture group (the branch name). -/
def branchMatcher : ReMatcher := fun _ s =>
  match s with
  | '[' :: 'b' :: 'r' :: 'a' :: 'n' :: 'c' :: 'h' :: ' ' :: '"' :: rest =>
    let run := rest.takeWhile (fun c => c ≠ '"')
    if run.isEmpty then none
    else
      match rest.drop run.length with
      | '"' :: ']' :: rem => some (run, ']', rem)
      | _ => none
  | _ => none

/-- The `findall` scan: leftmost, non-overlapping, advancing one character
when no match starts at the current position. -/
def reFindallAux (m : ReMatcher) : Nat → Option Char → List Char → List (List Char)
  | 0, _, _ => []
  | _ + 1, _, [] => []
  | fuel + 1, prev, c :: rest =>
    match m prev (c :: rest) with
    | some (tok, lc, rem) => tok :: reFindallAux m fuel (some lc) rem
    | none => reFindallAux m fuel (some c) rest

/-- `pattern.findall(text)`. -/
def reFindall (m : ReMatcher) (s : List Char) : List (List Char) :=
  reFindallAux m s.length none s

/-- `OBJECT_FILENAME_RE.fullmatch`: `objects/<2 hex>/<38 hex>`, the whole
string. -/
def objectFilenameFullmatch (l : List Char) : Bool :=
  "objects/".data.isPrefixOf l &&
  (let rest := l.drop 8
   rest.length = 41 && (rest.take 2).all isAsciiHexLower &&
   ((rest.drop 2).head? == some '/') && (rest.drop 3).all isAsciiHexLower)

/-! ## Percent-decoding (model of `urllib.parse.unquote` with the default
UTF-8 encoding and `replace` error handling) -/

/-- Value of one hexadecimal digit, upper- or lower-case. -/
def hexDigitVal (c : Char) : Option Nat :=
  if '0' ≤ c ∧ c ≤ '9' then some (c.toNat - 48)
  else if 'a' ≤ c ∧ c ≤ 'f' then some (c.toNat - 87)
  else if 'A' ≤ c ∧ c ≤ 'F' then some (c.toNat - 55)
  else none

/-- First pass of `unquote`: each valid `%XX` escape becomes a byte, every
other character stays literal (an invalid escape keeps its `%`). -/
def unquoteTokens : List Char → List (Char ⊕ Byte)
  | '%' :: a :: b :: rest =>
    match hexDigitVal a, hexDigitVal b with
    | some x, some y => Sum.inr (16 * x + y) :: unquoteTokens rest
    | _, _ => Sum.inl '%' :: unquoteTokens (a :: b :: rest)
  | c :: rest => Sum.inl c :: unquoteTokens rest
  | [] => []

/-- The U+FFFD replacement character. -/
def replacementChar : Char := Char.ofNat 65533

/-- A UTF-8 continuation byte. -/
def isContByte (b : Byte) : Bool :=
  decide (128 ≤ b) && decide (b ≤ 191)

/-- Lower bound for the second byte of a three-byte sequence (excludes
overlong encodings after an `E0` lead). -/
def cont2Lo (b : Byte) : Byte := if b = 224 then 160 else 128

/-- Upper bound for the second byte of a three-byte sequence (excludes
surrogates after an `ED` lead). -/
def cont2Hi (b : Byte) : Byte := if b = 237 then 159 else 191

/-- Lower bound for the second byte of a four-byte sequence (excludes
overlong encodings after an `F0` lead). -/
def cont3Lo (b : Byte) : Byte := if b = 240 then 144 else 128

/-- Upper bound for the second byte of a four-byte sequence (excludes
codepoints beyond U+10FFFF after an `F4` lead). -/
def cont3Hi (b : Byte) : Byte := if b = 244 then 143 else 191

/-- UTF-8 decoding with one U+FFFD per maximal invalid subpart, as the
`replace` error handler does.  The fuel argument is seeded with the input
length; every step consumes at least one byte, so it never runs out. -/
def utf8DecodeReplaceF : Nat → List Byte → List Char
  | 0, _ => []
  | _ + 1, [] => []
  | fuel + 1, b :: rest =>
    if b < 128 then Char.ofNat b :: utf8DecodeReplaceF fuel rest
    else if 194 ≤ b ∧ b ≤ 223 then
      match rest with
      | [] => [replacementChar]
      | b2 :: r2 =>
        if isContByte b2 then
          Char.ofNat ((b - 192) * 64 + (b2 - 128)) :: utf8DecodeReplaceF fuel r2
        else replacementChar :: utf8DecodeReplaceF fuel (b2 :: r2)
    else if 224 ≤ b ∧ b ≤ 239 then
      match rest with
      | [] => [replacementChar]
      | b2 :: r2 =>
        if cont2Lo b ≤ b2 ∧ b2 ≤ cont2Hi b then
          match r2 with
          | [] => [replacementChar]
          | b3 :: r3 =>
            if isContByte b3 then
              Char.ofNat ((b - 224) * 4096 + (b2 - 128) * 64 + (b3 - 128)) ::
                utf8DecodeReplaceF fuel r3
            else replacementChar :: utf8DecodeReplaceF fuel (b3 :: r3)
        else replacementChar :: utf8DecodeReplaceF fuel (b2 :: r2)
    else if 240 ≤ b ∧ b ≤ 244 then
      match rest with
      | [] => [replacementChar]
      | b2 :: r2 =>
        if cont3Lo b ≤ b2 ∧ b2 ≤ cont3Hi b then
          match r2 with
          | [] => [replacementChar]
          | b3 :: r3 =>
            if isContByte b3 then
              match r3 with
              | [] => [replacementChar]
              | b4 :: r4 =>
                if isContByte b4 then
                  Char.ofNat ((b - 240) * 262144 + (b2 - 128) * 4096 +
                    (b3 - 128) * 64 + (b4 - 128)) :: utf8DecodeReplaceF fuel r4
                else replacementChar :: utf8DecodeReplaceF fuel (b4 :: r4)
            else replacementChar :: utf8DecodeReplaceF fuel (b3 :: r3)
        else replacementChar :: utf8DecodeReplaceF fuel (b2 :: r2)
      else replacementChar :: utf8DecodeReplaceF fuel rest

/-- UTF-8 decoding with replacement. -/
def utf8DecodeReplace (l : List Byte) : List Char :=
  utf8DecodeReplaceF l.length l

/-- Second pass of `unquote`: literal characters pass through; each maximal
run of escape bytes is UTF-8-decoded with replacement.  The fuel argument
is seeded with the input length; every step consumes at least one token, so
it never runs out. -/
def unquoteDetokF : Nat → List (Char ⊕ Byte) → List Char
  | 0, _ => []
  | _ + 1, [] => []
  | fuel + 1, Sum.inl c :: rest => c :: unquoteDetokF fuel rest
  | fuel + 1, Sum.inr b :: rest =>
    let bytes := b :: (rest.takeWhile Sum.isRight).filterMap
      (fun t => t.getRight?)
    utf8DecodeReplace bytes ++ unquoteDetokF fuel (rest.dropWhile Sum.isRight)

/-- Literal characters and decoded escape-byte runs, concatenated. -/
def unquoteDetok (l : List (Char ⊕ Byte)) : List Char :=
  unquoteDetokF l.length l

/-- `urllib.parse.unquote` on a character list. -/
def pyUnquote (l : List Char) : List Char :=
  unquoteDetok (unquoteTokens l)

/-! ## Local destination paths (embedding of `GitRipper.worker`,
lines 105–110) -/

/-- Python `str.split('://')`: split on every non-overlapping occurrence,
left to right. -/
def splitSchemeSep : List Char → List Char → List (List Char)
  | [], acc => [acc.reverse]
  | ':' :: '/' :: '/' :: rest, acc => acc.reverse :: splitSchemeSep rest []
  | c :: rest, acc => splitSchemeSep rest (c :: acc)

/-- Element `[1]` of a split result; `none` models the `IndexError` raised
when the list is shorter. -/
def secondOf : List (List Char) → Option (List Char)
  | _ :: s :: _ => some s
  | _ => none

/-- `file_url.split('://')[1]`: the second field.  `none` models the
`IndexError` raised when the separator is absent. -/
def urlSecondField (l : List Char) : Option (List Char) :=
  secondOf (splitSchemeSep l [])

/-- `pathlib` join of the output directory with a relative string. -/
def pathJoin (dir rel : List Char) : List Char :=
  if rel.isEmpty then dir
  else if rel.head? = some '/' then rel
  else dir ++ '/' :: rel

/-- The worker's local destination path:
`self.output_directory.joinpath(unquote(file_url.split('://')[1]))`. -/
def destPath (outputDir : String) (url : String) : Option String :=
  (urlSecondField url.data).map
    (fun s => String.mk (pathJoin outputDir.data (pyUnquote s)))

/-- Everything after the first `://` — the claim's description of the
suffix used for the local path. -/
def afterFirstSchemeSep : List Char → Option (List Char)
  | ':' :: '/' :: '/' :: rest => some rest
  | _ :: rest => afterFirstSchemeSep rest
  | [] => none

/-- The destination path as the claim words it: output directory joined
with the percent-decoded substring after the first `://`. -/
def claimDestPath (outputDir : String) (url : String) : Option String :=
  (afterFirstSchemeSep url.data).map
    (fun s => String.mk (pathJoin outputDir.data (pyUnquote s)))

/-- Number of (non-overlapping) `://` occurrences. -/
def schemeSepCount : List Char → Nat
  | ':' :: '/' :: '/' :: rest => schemeSepCount rest + 1
  | _ :: rest => schemeSepCount rest
  | [] => 0

/-- The worker's download decision (line 110): fetch exactly when override
mode is set or the destination file does not already exist; a missing `://`
separator raises before the decision, hence no download. -/
def workerDownloads (overrideExisting : Bool) (fs : List String)
    (outputDir url : String) : Bool :=
  match destPath outputDir url with
  | some p => overrideExisting || !(fs.contains p)
  | none => false

theorem splitSchemeSep_no_sep (l acc : List Char) (h : schemeSepCount l = 0) :
    splitSchemeSep l acc = [acc.reverse ++ l] := by
  induction l, acc using splitSchemeSep.induct with
  | case1 acc => simp [splitSchemeSep]
  | case2 rest acc ih => simp [schemeSepCount] at h
  | case3 c rest acc hne ih =>
    have e1 : splitSchemeSep (c :: rest) acc = splitSchemeSep rest (c :: acc) := by
      rw [splitSchemeSep]
      · exact hne
    have e2 : schemeSepCount (c :: rest) = schemeSepCount rest := by
      rw [schemeSepCount]
      · exact hne
    rw [e2] at h
    rw [e1, ih h]
    simp

theorem secondOf_split_one_sep (l acc : List Char) (h : schemeSepCount l = 1) :
    secondOf (splitSchemeSep l acc) = afterFirstSchemeSep l := by
  induction l, acc using splitSchemeSep.induct with
  | case1 acc => simp [schemeSepCount] at h
  | case2 rest acc ih =>
    have h0 : schemeSepCount rest = 0 := by
      simp [schemeSepCount] at h
      exact h
    rw [splitSchemeSep, splitSchemeSep_no_sep rest [] h0]
    rfl
  | case3 c rest acc hne ih =>
    have e1 : splitSchemeSep (c :: rest) acc = splitSchemeSep rest (c :: acc) := by
      rw [splitSchemeSep]
      · exact hne
    have e2 : schemeSepCount (c :: rest) = schemeSepCount rest := by
      rw [schemeSepCount]
      · exact hne
    have e3 : afterFirstSchemeSep (c :: rest) = afterFirstSchemeSep rest := by
      rw [afterFirstSchemeSep]
      · exact hne
    rw [e2] at h
    rw [e1, e3, ih h]

theorem splitSchemeSep_http (l : List Char) :
    splitSchemeSep ('h' :: 't' :: 't' :: 'p' :: ':' :: '/' :: '/' :: l) [] =
      ['h', 't', 't', 'p'] :: splitSchemeSep l [] := rfl

theorem splitSchemeSep_https (l : List Char) :
    splitSchemeSep ('h' :: 't' :: 't' :: 'p' :: 's' :: ':' :: '/' :: '/' :: l) [] =
      ['h', 't', 't', 'p', 's'] :: splitSchemeSep l [] := rfl

/-- Counterexample to claim C10 as stated: for the artifact URL
`http://example.org/.git/a://b` (reachable because a `ref/…` token may
contain a second `://`), the code's `split('://')[1]` keeps only the field
between the first and the second separator, not the whole substring after
the first one, so the computed local path drops the `://b` tail. -/
theorem claim_C10_counterexample :
    destPath "output" "http://example.org/.git/a://b" =
      some "output/example.org/.git/a" ∧
    claimDestPath "output" "http://example.org/.git/a://b" =
      some "output/example.org/.git/a://b" ∧
    destPath "output" "http://example.org/.git/a://b" ≠
      claimDestPath "output" "http://example.org/.git/a://b" :=
  ⟨by decide, by decide, by decide⟩

/-- Claim C10 as amended: the local destination path is the output
directory joined with the percent-decoded *second field* of the URL split
on `://` — which equals the substring after the first `://` whenever the
URL contains exactly one `://` occurrence.  Consequently two URLs
differing only in scheme (`http` vs `https`) map to the same local file,
the download decision is identical for them, and an existing destination
file suppresses the download unless override mode is set. -/
theorem claim_C10_dest_path :
    (∀ dir r : String,
      destPath dir ("http://" ++ r) = destPath dir ("https://" ++ r)) ∧
    (∀ dir url : String, schemeSepCount url.data = 1 →
      destPath dir url = claimDestPath dir url) ∧
    (∀ (ov : Bool) (fs : List String) (dir r : String),
      workerDownloads ov fs dir ("http://" ++ r) =
        workerDownloads ov fs dir ("https://" ++ r)) ∧
    (∀ (fs : List String) (dir url p : String),
      destPath dir url = some p → fs.contains p →
      workerDownloads false fs dir url = false) := by
  have key : ∀ dir r : String,
      destPath dir ("http://" ++ r) = destPath dir ("https://" ++ r) := by
    intro dir r
    unfold destPath urlSecondField
    rw [String.data_append, String.data_append,
      show "http://".data ++ r.data =
        'h' :: 't' :: 't' :: 'p' :: ':' :: '/' :: '/' :: r.data from rfl,
      show "https://".data ++ r.data =
        'h' :: 't' :: 't' :: 'p' :: 's' :: ':' :: '/' :: '/' :: r.data from rfl,
      splitSchemeSep_http, splitSchemeSep_https]
    cases splitSchemeSep r.data [] <;> rfl
  refine ⟨key, fun dir url h => ?_, fun ov fs dir r => ?_, fun fs dir url p hdest hmem => ?_⟩
  · unfold destPath claimDestPath urlSecondField
    rw [secondOf_split_one_sep url.data [] h]
  · unfold workerDownloads
    rw [key dir r]
  · unfold workerDownloads
    rw [hdest]
    simp only [Bool.false_or, hmem, Bool.not_true]

/-- Witness for C10: on a one-separator URL the two path formulas agree,
and with the destination file present and override off no download
happens. -/
theorem claim_C10_witness :
    destPath "output" "http://example.org/.git/index" =
      claimDestPath "output" "http://example.org/.git/index" ∧
    workerDownloads false ["output/example.org/.git/index"] "output"
      "http://example.org/.git/index" = false :=
  ⟨claim_C10_dest_path.2.1 "output" "http://example.org/.git/index" (by decide),
   claim_C10_dest_path.2.2.2 ["output/example.org/.git/index"] "output"
     "http://example.org/.git/index" "output/example.org/.git/index"
     (by decide) (by decide)⟩

/-! ## Discovery engine (embedding of `GitRipper.parse_file` and its
helpers) -/

/-- Strict UTF-8 decoding (`Path.read_text`); `none` models
`UnicodeDecodeError`.  Fueled like `utf8DecodeReplaceF`. -/
def utf8DecodeStrictF : Nat → List Byte → Option (List Char)
  | 0, _ => some []
  | _ + 1, [] => some []
  | fuel + 1, b :: rest =>
    if b < 128 then (utf8DecodeStrictF fuel rest).map (fun t => Char.ofNat b :: t)
    else if 194 ≤ b ∧ b ≤ 223 then
      match rest with
      | b2 :: r2 =>
        if isContByte b2 then
          (utf8DecodeStrictF fuel r2).map
            (fun t => Char.ofNat ((b - 192) * 64 + (b2 - 128)) :: t)
        else none
      | [] => none
    else if 224 ≤ b ∧ b ≤ 239 then
      match rest with
      | b2 :: b3 :: r3 =>
        if (cont2Lo b ≤ b2 ∧ b2 ≤ cont2Hi b) ∧ isContByte b3 then
          (utf8DecodeStrictF fuel r3).map
            (fun t => Char.ofNat ((b - 224) * 4096 + (b2 - 128) * 64 + (b3 - 128)) :: t)
        else none
      | _ => none
    else if 240 ≤ b ∧ b ≤ 244 then
      match rest with
      | b2 :: b3 :: b4 :: r4 =>
        if (cont3Lo b ≤ b2 ∧ b2 ≤ cont3Hi b) ∧ isContByte b3 ∧ isContByte b4 then
          (utf8DecodeStrictF fuel r4).map
            (fun t => Char.ofNat ((b - 240) * 262144 + (b2 - 128) * 4096 +
              (b3 - 128) * 64 + (b4 - 128)) :: t)
        else none
      | _ => none
    else none

/-- Strict UTF-8 decoding of a whole byte string. -/
def utf8DecodeStrict (l : List Byte) : Option (List Char) :=
  utf8DecodeStrictF l.length l

/-- The ASCII bytes of a string (for building file contents in witnesses). -/
def asciiBytes (s : String) : List Byte :=
  s.data.map Char.toNat

/-- Python `str.split('.git/')`. -/
def splitGitSep : List Char → List Char → List (List Char)
  | [], acc => [acc.reverse]
  | '.' :: 'g' :: 'i' :: 't' :: '/' :: rest, acc => acc.reverse :: splitGitSep rest []
  | c :: rest, acc => splitGitSep rest (c :: acc)

/-- `_, filename = str(file_path).split('.git/')`: the tuple unpack demands
exactly two fields; `none` models the `ValueError` otherwise. -/
def filenameOf (path : List Char) : Option (List Char) :=
  match splitGitSep path [] with
  | [_, f] => some f
  | _ => none

/-- `GitRipper.gen_branch_refs`: the four ref paths for one branch name, in
generator order. -/
def gen_branch_refs (branch : List Char) : List (List Char) :=
  ["refs/heads/".data ++ branch,
   "refs/remotes/origin/".data ++ branch,
   "logs/refs/heads/".data ++ branch,
   "logs/refs/remotes/origin/".data ++ branch]

/-- `GitRipper.get_object_path`: `objects/<hash[:2]>/<hash[2:]>`. -/
def get_object_path (hash : List Char) : List Char :=
  "objects/".data ++ hash.take 2 ++ '/' :: hash.drop 2

/-- One lower-case hexadecimal digit. -/
def hexDigitChar (n : Nat) : Char :=
  if n < 10 then Char.ofNat (48 + n) else Char.ofNat (87 + n)

/-- `bytes.hex()`: two lower-case digits per byte. -/
def bytesToHex (l : List Byte) : List Char :=
  l.flatMap (fun b => [hexDigitChar (b / 16 % 16), hexDigitChar (b % 16)])

/-- A reference with its own scheme (`scheme:` after an alphabetic first
character), which `urljoin` returns unchanged. -/
def relHasScheme : List Char → Bool
  | [] => false
  | c :: rest =>
    c.isAlpha &&
      ((rest.drop (rest.takeWhile
        (fun d => d.isAlphanum || d = '+' || d = '-' || d = '.')).length).head?
        == some ':')

/-- The base URL up to and including its last `/`. -/
def dirOfBase (base : List Char) : List Char :=
  (base.reverse.dropWhile (fun c => c ≠ '/')).reverse

/-- The `scheme://host` part of the base URL. -/
def schemeHostOf (base : List Char) : List Char :=
  match afterFirstSchemeSep base with
  | some tail =>
    base.take (base.length - (tail.length + 3)) ++
      ':' :: '/' :: '/' :: tail.takeWhile (fun c => c ≠ '/')
  | none => base.takeWhile (fun c => c ≠ '/')

/-- Model of `urllib.parse.urljoin` restricted to the reference shapes this
crawler produces: a reference with its own scheme replaces the base; a
reference starting with `/` keeps the base's scheme and host; anything else
resolves against the base's directory (the crawler's bases end in `.git/`,
so that is the base itself).  Dot-segment normalization is not modelled —
no discovered reference here contains `.` or `..` segments. -/
def pyUrljoin (base rel : List Char) : List Char :=
  if relHasScheme rel then rel
  else if rel.head? == some '/' then schemeHostOf base ++ rel
  else dirOfBase base ++ rel

/-- What one `parse_file` call does: URLs put on the queue and local files
unlinked, in order. -/
structure ParseEffects where
  enqueued : List String
  deleted : List String
  deriving Repr, DecidableEq

/-- The exceptions `parse_file` can raise (all caught at the worker
boundary): the tuple-unpack `ValueError`, `UnicodeDecodeError` from
`read_text`, and the index parser's errors. -/
inductive ParseErr
  | valueErr
  | decodeErr
  | indexErr (e : IndexErr)
  deriving Repr, DecidableEq

instance exceptDecEq {ε α : Type} [DecidableEq ε] [DecidableEq α] :
    DecidableEq (Except ε α) := fun a b =>
  match a, b with
  | .error e, .error f =>
    if h : e = f then .isTrue (by rw [h])
    else .isFalse (fun hh => h (Except.error.inj hh))
  | .ok x, .ok y =>
    if h : x = y then .isTrue (by rw [h])
    else .isFalse (fun hh => h (Except.ok.inj hh))
  | .error _, .ok _ => .isFalse (fun hh => Except.noConfusion hh)
  | .ok _, .error _ => .isFalse (fun hh => Except.noConfusion hh)

/-- `GitRipper.parse_file`: classify by the path after `.git/`, in the
source's priority order, and collect the enqueued URLs and deleted files.
`inflate` is the `zlib.decompress` oracle (`none` = `zlib.error`). -/
def parse_file (inflate : List Byte → Option (List Byte))
    (filePath gitUrl : String) (contents : List Byte) :
    Except ParseErr ParseEffects :=
  match filenameOf filePath.data with
  | none => .error .valueErr
  | some filename =>
    if filename = "config".data then
      match utf8DecodeStrict contents with
      | none => .error .decodeErr
      | some text =>
        .ok ⟨((reFindall branchMatcher text).flatMap gen_branch_refs).map
          (fun r => String.mk (pyUrljoin gitUrl.data r)), []⟩
    else if filename = "index".data then
      match gitIndexParse contents with
      | .error e => .error (.indexErr e)
      | .ok entries =>
        .ok ⟨entries.map (fun en => String.mk (pyUrljoin gitUrl.data
          (get_object_path (bytesToHex en.sha1)))), []⟩
    else if filename = "objects/info/packs".data then
      match utf8DecodeStrict contents with
      | none => .error .decodeErr
      | some text =>
        .ok ⟨(reFindall packMatcher text).flatMap (fun pack =>
          [String.mk (pyUrljoin gitUrl.data
            ("objects/pack/".data ++ pack ++ ".idx".data)),
           String.mk (pyUrljoin gitUrl.data
            ("objects/pack/".data ++ pack ++ ".pack".data))]), []⟩
    else if objectFilenameFullmatch filename then
      match inflate contents with
      | none => .ok ⟨[], [filePath]⟩
      | some decoded =>
        if decoded.take 4 = [98, 108, 111, 98] then .ok ⟨[], []⟩
        else
          .ok ⟨(reFindall hashMatcher (utf8DecodeReplace decoded)).map
            (fun h => String.mk (pyUrljoin gitUrl.data (get_object_path h))), []⟩
    else
      match utf8DecodeStrict contents with
      | none => .error .decodeErr
      | some text =>
        .ok ⟨(reFindall hashOrRefMatcher text).map (fun x =>
          String.mk (pyUrljoin gitUrl.data
            (if x.take 3 = ['r', 'e', 'f'] then x else get_object_path x))), []⟩

/-- Claim C7 (code bug): the fallback scanner's ref alternative is
`\bref/\S+` — `ref/`, not `refs/` — and a `refs/...` token contains no
`ref/` substring, so ref-shaped tokens are never found: the canonical HEAD
content `ref: refs/heads/master` yields no match and no enqueue at all.
The other half of the pattern behaves as the claim says: a `ref/`-prefixed
token is returned verbatim and a 40-hex token is returned for the
loose-object path. -/
theorem claim_C7_ref_regex_bug :
    reFindall hashOrRefMatcher "ref: refs/heads/master".data = [] ∧
    parse_file (fun _ => none) "output/example.org/.git/HEAD"
      "http://example.org/.git/" (asciiBytes "ref: refs/heads/master") =
      .ok ⟨[], []⟩ ∧
    (reFindall hashOrRefMatcher
      "see ref/x and 0123456789abcdef0123456789abcdef01234567".data).map
        String.mk =
      ["ref/x", "0123456789abcdef0123456789abcdef01234567"] :=
  ⟨by decide, by decide, by decide⟩

/-- Claim C8: when inflation of a loose object fails, `parse_file` deletes
exactly that object's local file and enqueues nothing; moreover no branch
of `parse_file` ever deletes any file other than the artifact it was given,
so the file that referenced the object is never deleted. -/
theorem claim_C8_inflate_failure :
    (∀ (inflate : List Byte → Option (List Byte)) (filePath gitUrl : String)
        (contents : List Byte) (filename : List Char),
      filenameOf filePath.data = some filename →
      objectFilenameFullmatch filename = true →
      inflate contents = none →
      parse_file inflate filePath gitUrl contents = .ok ⟨[], [filePath]⟩) ∧
    (∀ (inflate : List Byte → Option (List Byte)) (filePath gitUrl : String)
        (contents : List Byte) (eff : ParseEffects),
      parse_file inflate filePath gitUrl contents = .ok eff →
      ∀ q ∈ eff.deleted, q = filePath) := by
  constructor
  · intro inflate filePath gitUrl contents filename hfn hobj hfail
    have hc : ¬(filename = "config".data) := by
      rintro rfl
      exact absurd hobj (by decide)
    have hi : ¬(filename = "index".data) := by
      rintro rfl
      exact absurd hobj (by decide)
    have hp : ¬(filename = "objects/info/packs".data) := by
      rintro rfl
      exact absurd hobj (by decide)
    unfold parse_file
    rw [hfn]
    simp only [if_neg hc, if_neg hi, if_neg hp, hobj, if_true, hfail]
  · intro inflate filePath gitUrl contents eff hok q hq
    unfold parse_file at hok
    repeat' split at hok
    all_goals
      first
        | exact Except.noConfusion hok
        | (cases Except.ok.inj hok; simp_all)

/-- Witness for C8: a concrete corrupt loose object is deleted and nothing
is enqueued. -/
theorem claim_C8_witness :
    parse_file (fun _ => none)
      "output/example.org/.git/objects/ab/bbbbbbbbbbbbbbbbbbbbbbbbbbbbbbbbbbbbbb"
      "http://example.org/.git/" [1, 2, 3] =
      .ok ⟨[], ["output/example.org/.git/objects/ab/bbbbbbbbbbbbbbbbbbbbbbbbbbbbbbbbbbbbbb"]⟩ :=
  claim_C8_inflate_failure.1 (fun _ => none)
    "output/example.org/.git/objects/ab/bbbbbbbbbbbbbbbbbbbbbbbbbbbbbbbbbbbbbb"
    "http://example.org/.git/" [1, 2, 3]
    "objects/ab/bbbbbbbbbbbbbbbbbbbbbbbbbbbbbbbbbbbbbb".data
    (by decide) (by decide) rfl

/-! ## Worker loop and queue (embedding of `GitRipper.worker` and `run`)

The network, the filesystem and the inflate pool are outside the program,
so the download-and-parse half of one iteration is an oracle: for a fresh
URL it reports which URLs the handling managed to enqueue and whether an
exception reached the worker's catch-all.  The queue, the unfinished-task
counter of `asyncio.Queue` and the seen-set are embedded from the code. -/

/-- Oracle outcome of handling one fresh URL (download + `parse_file`):
the URLs put on the queue before the handling finished or failed, and
whether an exception reached the worker's `except` clause. -/
structure ItemOutcome where
  enqueues : List String
  failed : Bool
  deriving Repr, DecidableEq

/-- Queue and seen-set state shared by the workers.  The queue holds
artifact URLs and `None` stop signals; `unfinished` is `asyncio.Queue`'s
unfinished-task counter (incremented by `put`, decremented by
`task_done`).  `seen` records the `seen_urls.add` calls, newest first. -/
structure CrawlState where
  queue : List (Option String)
  unfinished : Nat
  seen : List String
  deriving Repr, DecidableEq

/-- Result of one `while True` iteration of `GitRipper.worker`. -/
inductive StepResult
  | running (s : CrawlState)
  | stopped (s : CrawlState)
  | blocked
  deriving Repr, DecidableEq

/-- One iteration of the worker loop (lines 92–129): `queue.get()` blocks
on an empty queue; a `None` breaks the loop; a URL already in `seen_urls`
is skipped; otherwise the URL is added to `seen_urls` and handled through
the oracle, appending whatever it enqueued.  Every dequeue path runs
`queue.task_done()` in the `finally`, and the `except Exception` clause
turns any per-item error into a `continue`, so a failed outcome still
yields a `running` state. -/
def workerIter (outcome : String → ItemOutcome) (s : CrawlState) : StepResult :=
  match s.queue with
  | [] => .blocked
  | none :: rest => .stopped ⟨rest, s.unfinished - 1, s.seen⟩
  | some url :: rest =>
    if url ∈ s.seen then .running ⟨rest, s.unfinished - 1, s.seen⟩
    else .running ⟨rest ++ ((outcome url).enqueues.map some),
      s.unfinished - 1 + (outcome url).enqueues.length, url :: s.seen⟩

/-- External crawl events: an enqueue from any discovery source (seeding
in `run`, or another worker), or one worker iteration under an oracle. -/
inductive CrawlEv
  | enqueue (u : String)
  | iter (outcome : String → ItemOutcome)

/-- Effect of one event: `queue.put` appends and increments the counter;
an iteration applies `workerIter` (a blocked worker changes nothing). -/
def crawlStep (s : CrawlState) : CrawlEv → CrawlState
  | .enqueue u => ⟨s.queue ++ [some u], s.unfinished + 1, s.seen⟩
  | .iter o =>
    match workerIter o s with
    | .running s' => s'
    | .stopped s' => s'
    | .blocked => s

/-- A whole crawl: any interleaving of enqueues and worker iterations. -/
def crawlRun (s : CrawlState) : List CrawlEv → CrawlState
  | [] => s
  | e :: es => crawlRun (crawlStep s e) es

theorem crawlStep_seen_cases (s : CrawlState) (e : CrawlEv) :
    (crawlStep s e).seen = s.seen ∨
    ∃ url, url ∉ s.seen ∧ (crawlStep s e).seen = url :: s.seen := by
  cases e with
  | enqueue u => exact Or.inl rfl
  | iter o =>
    cases hq : s.queue with
    | nil => exact Or.inl (by simp [crawlStep, workerIter, hq])
    | cons h t =>
      cases h with
      | none => exact Or.inl (by simp [crawlStep, workerIter, hq])
      | some url =>
        by_cases hmem : url ∈ s.seen
        · exact Or.inl (by simp [crawlStep, workerIter, hq, hmem])
        · exact Or.inr ⟨url, hmem, by simp [crawlStep, workerIter, hq, hmem]⟩

theorem crawlStep_seen_nodup (s : CrawlState) (e : CrawlEv)
    (h : s.seen.Nodup) : (crawlStep s e).seen.Nodup := by
  rcases crawlStep_seen_cases s e with heq | ⟨url, hmem, heq⟩
  · rw [heq]; exact h
  · rw [heq]; exact List.Nodup.cons hmem h

theorem crawlStep_seen_suffix (s : CrawlState) (e : CrawlEv) :
    s.seen <:+ (crawlStep s e).seen := by
  rcases crawlStep_seen_cases s e with heq | ⟨url, hmem, heq⟩
  · rw [heq]
  · rw [heq]; exact List.suffix_cons _ _

/-- Claim C1: over every initial queue and every interleaving of enqueue
events (duplicates included) and worker iterations, the seen-set stays
duplicate-free — a URL is added to it (and hence handled: the download and
parse run only on the branch that adds it) at most once per run — and the
seen-set only ever grows: the earlier seen list is a suffix of the later
one, never shrunk or rewritten. -/
theorem claim_C1_at_most_once :
    (∀ (s : CrawlState) (es : List CrawlEv),
      s.seen.Nodup → (crawlRun s es).seen.Nodup) ∧
    (∀ (s : CrawlState) (es : List CrawlEv),
      s.seen <:+ (crawlRun s es).seen) := by
  constructor
  · intro s es
    induction es generalizing s with
    | nil => exact fun h => h
    | cons e es ih => exact fun h => ih _ (crawlStep_seen_nodup s e h)
  · intro s es
    induction es generalizing s with
    | nil => exact List.suffix_refl _
    | cons e es ih =>
      exact List.IsSuffix.trans (crawlStep_seen_suffix s e) (ih _)

/-- Witness for C1: a run that enqueues the same URL from two independent
sources and once more from its own parse still claims it exactly once. -/
theorem claim_C1_witness :
    (crawlRun ⟨[], 0, []⟩
      [.enqueue "http://e.org/.git/HEAD", .enqueue "http://e.org/.git/HEAD",
       .iter (fun _ => ⟨["http://e.org/.git/HEAD"], false⟩),
       .iter (fun _ => ⟨[], false⟩),
       .iter (fun _ => ⟨[], false⟩)]).seen.Nodup :=
  claim_C1_at_most_once.1 ⟨[], 0, []⟩ _ (by decide)

/-- Claim C3: an error inside the handling of one item never terminates
the worker — the iteration still produces a `running` state whose queue
continues with the remaining items (plus whatever the handling enqueued
before failing), and the only way the loop ends is a `None` stop signal at
the head of the queue. -/
theorem claim_C3_error_isolation :
    (∀ (outcome : String → ItemOutcome) (s : CrawlState) (url : String)
        (rest : List (Option String)),
      s.queue = some url :: rest → url ∉ s.seen → (outcome url).failed = true →
      workerIter outcome s =
        .running ⟨rest ++ ((outcome url).enqueues.map some),
          s.unfinished - 1 + (outcome url).enqueues.length, url :: s.seen⟩) ∧
    (∀ (outcome : String → ItemOutcome) (s : CrawlState) (s' : CrawlState),
      workerIter outcome s = .stopped s' → s.queue.head? = some none) := by
  constructor
  · intro outcome s url rest hq hseen _
    unfold workerIter
    rw [hq]
    simp [hseen]
  · intro outcome s s' h
    unfold workerIter at h
    split at h
    · exact StepResult.noConfusion h
    · next heq => rw [heq]; rfl
    · split at h <;> exact StepResult.noConfusion h

/-- Witness for C3: a failing item leaves the worker running on the rest
of the queue. -/
theorem claim_C3_witness :
    workerIter (fun _ => ⟨[], true⟩) ⟨[some "u", some "v"], 2, []⟩ =
      .running ⟨[some "v"], 1, ["u"]⟩ :=
  claim_C3_error_isolation.1 (fun _ => ⟨[], true⟩) ⟨[some "u", some "v"], 2, []⟩
    "u" [some "v"] rfl (by decide) rfl

/-! ## Pending-count accounting (fine-grained view of the crawl phase)

`workerIter` above compresses one iteration into a single step.  For the
drain semantics of `await queue.join()` the moment in the middle matters:
between `queue.get()` and the `finally` `queue.task_done()` the item is
in flight — the queue may be momentarily empty while the unfinished-task
count is still positive.  During the crawl phase (before `run` enqueues
the `None` signals) every queue item is a URL. -/

/-- Crawl-phase queue state with the in-flight items explicit. -/
structure PendingState where
  queue : List String
  inflight : List String
  unfinished : Nat
  seen : List String
  deriving Repr, DecidableEq

/-- `queue.put` / `put_nowait`: append and increment the unfinished-task
count. -/
def pendingPut (s : PendingState) (u : String) : PendingState :=
  ⟨s.queue ++ [u], s.inflight, s.unfinished + 1, s.seen⟩

/-- `queue.get()` and the code up to the first await: an empty queue
blocks; a seen URL is skipped, its `finally` running at once (that path
has no awaits), so `task_done` decrements immediately; a fresh URL is
marked seen and becomes in flight. -/
def pendingGet (s : PendingState) : PendingState :=
  match s.queue with
  | [] => s
  | u :: rest =>
    if u ∈ s.seen then ⟨rest, s.inflight, s.unfinished - 1, s.seen⟩
    else ⟨rest, u :: s.inflight, s.unfinished, u :: s.seen⟩

/-- Completion of one in-flight item: the URLs its handling enqueued
(error or not), then the one `finally` `task_done()`. -/
def pendingFinish (s : PendingState) (u : String) (enq : List String) :
    PendingState :=
  if u ∈ s.inflight then
    ⟨s.queue ++ enq, s.inflight.erase u, s.unfinished + enq.length - 1, s.seen⟩
  else s

/-- `await queue.join()` returns exactly when the unfinished-task count is
zero — this is what lets `run` proceed to the stop signals and
reconstruction. -/
def drained (s : PendingState) : Prop :=
  s.unfinished = 0

instance (s : PendingState) : Decidable (drained s) := by
  unfold drained; infer_instance

/-- The counter invariant: the unfinished-task count is the number of
queued items plus the number of in-flight items. -/
def PendingInv (s : PendingState) : Prop :=
  s.unfinished = s.queue.length + s.inflight.length

instance (s : PendingState) : Decidable (PendingInv s) := by
  unfold PendingInv; infer_instance

/-- Claim C2: every enqueue increments the pending count by exactly one;
every completed dequeue — including ones whose handling raised an error or
enqueued more work — decrements it by exactly one (net `+ enq.length - 1`);
the invariant `unfinished = queued + in-flight` is preserved by every
operation; under it, the crawl proceeds past `queue.join()` exactly when
nothing is queued *and* nothing is in flight — and a state whose queue is
momentarily empty while an item is in flight is not drained. -/
theorem claim_C2_pending_count :
    (∀ s u, (pendingPut s u).unfinished = s.unfinished + 1) ∧
    (∀ s u enq, u ∈ s.inflight → PendingInv s →
      (pendingFinish s u enq).unfinished + 1 = s.unfinished + enq.length) ∧
    (∀ s u, PendingInv s → PendingInv (pendingPut s u)) ∧
    (∀ s, PendingInv s → PendingInv (pendingGet s)) ∧
    (∀ s u enq, PendingInv s → PendingInv (pendingFinish s u enq)) ∧
    (∀ s, PendingInv s → (drained s ↔ s.queue = [] ∧ s.inflight = [])) ∧
    (∃ s : PendingState, PendingInv s ∧ s.queue = [] ∧ ¬drained s) := by
  refine ⟨fun s u => rfl, ?_, ?_, ?_, ?_, ?_,
    ⟨⟨[], ["u"], 1, ["u"]⟩, by decide, rfl, by decide⟩⟩
  · intro s u enq hmem hinv
    have hpos : 1 ≤ s.inflight.length :=
      List.length_pos.mpr (List.ne_nil_of_mem hmem)
    unfold PendingInv at hinv
    unfold pendingFinish
    rw [if_pos hmem]
    show (s.unfinished + enq.length - 1) + 1 = s.unfinished + enq.length
    omega
  · intro s u h
    unfold PendingInv at *
    show s.unfinished + 1 = (s.queue ++ [u]).length + s.inflight.length
    simp only [List.length_append, List.length_cons, List.length_nil]
    omega
  · intro s h
    unfold PendingInv at h
    cases hq : s.queue with
    | nil =>
      have e : pendingGet s = s := by
        unfold pendingGet
        rw [hq]
      rw [e]
      exact h
    | cons u rest =>
      rw [hq] at h
      simp only [List.length_cons] at h
      have e : pendingGet s =
          if u ∈ s.seen then ⟨rest, s.inflight, s.unfinished - 1, s.seen⟩
          else ⟨rest, u :: s.inflight, s.unfinished, u :: s.seen⟩ := by
        unfold pendingGet
        rw [hq]
      rw [e]
      by_cases hmem : u ∈ s.seen
      · rw [if_pos hmem]
        unfold PendingInv
        show s.unfinished - 1 = rest.length + s.inflight.length
        omega
      · rw [if_neg hmem]
        unfold PendingInv
        show s.unfinished = rest.length + (u :: s.inflight).length
        simp only [List.length_cons]
        omega
  · intro s u enq h
    unfold PendingInv pendingFinish at *
    split
    · next hmem =>
      have := List.length_erase_of_mem hmem
      simp only [List.length_append, this]
      have hpos : 1 ≤ s.inflight.length :=
        List.length_pos.mpr (List.ne_nil_of_mem hmem)
      omega
    · exact h
  · intro s h
    unfold drained
    rw [h]
    constructor
    · intro h0
      have hq : s.queue.length = 0 := by omega
      have hi : s.inflight.length = 0 := by omega
      exact ⟨List.length_eq_zero.mp hq, List.length_eq_zero.mp hi⟩
    · intro ⟨h1, h2⟩
      rw [h1, h2]
      rfl

/-- Witness for C2: completing an in-flight item that enqueued two more
URLs nets `+2 − 1` on the counter, and an invariant state with an empty
queue but an in-flight item is not drained. -/
theorem claim_C2_witness :
    (pendingFinish ⟨[], ["u"], 1, ["u"]⟩ "u" ["a", "b"]).unfinished + 1 = 1 + 2 ∧
    ¬drained ⟨[], ["u"], 1, ["u"]⟩ :=
  ⟨claim_C2_pending_count.2.1 ⟨[], ["u"], 1, ["u"]⟩ "u" ["a", "b"]
      (by decide) (by decide),
   by decide⟩

end GitRipper
